import Mathlib

/-!
Shallow embedding of `src/utils/csvParser.ts` from the repository
Kababey/RedditStorryTellerAppV0.2, together with theorems about the
decoder it implements.

Strings are modelled as `List Char`; every function below is a direct
translation of the corresponding TypeScript code.
-/

namespace RedditCsv

/-- The whitespace characters relevant to JavaScript `String.prototype.trim`
for the inputs of this decoder (space, tab, LF, CR, vertical tab, form feed). -/
def jsWS (c : Char) : Bool :=
  c == ' ' || c == '\t' || c == '\n' || c == '\r' || c == '\x0b' || c == '\x0c'

/-- JavaScript `s.trim()`: drop leading and trailing whitespace. -/
def trim (l : List Char) : List Char :=
  ((l.dropWhile jsWS).reverse.dropWhile jsWS).reverse

/-- Models the global left-to-right CRLF-to-LF replacement performed by
the `replace` call at the top of `parseCSV`. -/
def normalizeCRLF : List Char → List Char
  | [] => []
  | '\r' :: '\n' :: rest => '\n' :: normalizeCRLF rest
  | c :: rest => c :: normalizeCRLF rest

/-- The state machine of `parseCsvRow`: first argument is the `inQuotes`
flag, second the accumulated `currentField`, third the remaining input.
In quoted state a doubled quote emits a literal quote (the source skips the
second quote with `i++`), a lone quote leaves quoted state; in unquoted
state a quote enters quoted state, a comma closes the current field.
The final field is always pushed when the input ends. -/
def fieldsAux : Bool → List Char → List Char → List (List Char)
  | _, cur, [] => [cur]
  | true, cur, '"' :: '"' :: rest => fieldsAux true (cur ++ ['"']) rest
  | true, cur, '"' :: rest => fieldsAux false cur rest
  | true, cur, c :: rest => fieldsAux true (cur ++ [c]) rest
  | false, cur, '"' :: rest => fieldsAux true cur rest
  | false, cur, ',' :: rest => cur :: fieldsAux false [] rest
  | false, cur, c :: rest => fieldsAux false (cur ++ [c]) rest

/-- Function `parseCsvRow` from the source: split one row string into its fields. -/
def parseCsvRow (row : List Char) : List (List Char) :=
  fieldsAux false [] row

/-- Models the guarded push of the current row in the row-splitting loop:
a row is appended only when it is not whitespace-only. -/
def pushRow (cur : List Char) : List (List Char) :=
  if trim cur = [] then [] else [cur]

/-- The row-splitting loop of `parseCSV`: `inQuotes` is toggled by every
quote character; a newline seen while not in quotes closes the current row
(dropping it when blank), any other character is accumulated. -/
def splitRowsAux : Bool → List Char → List Char → List (List Char)
  | _, cur, [] => pushRow cur
  | inQ, cur, c :: rest =>
      let inQ2 := if c = '"' then !inQ else inQ
      if c = '\n' ∧ inQ2 = false then pushRow cur ++ splitRowsAux inQ2 [] rest
      else splitRowsAux inQ2 (cur ++ [c]) rest

/-- The row splitter of `parseCSV`, started in unquoted state with an empty
current row. -/
def splitRows (l : List Char) : List (List Char) :=
  splitRowsAux false [] l

/-- A value stored in a decoded record: plain text, a coerced integer
(`score`, `num_comments`) or a coerced boolean (`is_self`, `over_18`). -/
inductive FieldVal where
  | text : List Char → FieldVal
  | num : Int → FieldVal
  | flag : Bool → FieldVal
deriving DecidableEq, Repr

/-- A decoded `Story` object: the header-derived fields plus the
decoder-assigned `id`, `status`, `isSelected`, `audioFileName` and
`coverAudioFileName` properties, which the source assigns after the
header loop and which therefore override any like-named header field. -/
structure Story where
  fields : List (List Char × FieldVal)
  id : List Char
  status : List Char
  isSelected : Bool
  audioFileName : List Char
  coverAudioFileName : List Char
deriving DecidableEq, Repr

/-- Decimal digit test (characters `0`-`9`). -/
def isDigitC (c : Char) : Bool :=
  48 ≤ c.toNat && c.toNat ≤ 57

/-- Value of a list of decimal digit characters, most significant first. -/
def decValue (l : List Char) : Nat :=
  l.foldl (fun a c => a * 10 + (c.toNat - 48)) 0

/-- JavaScript `parseInt(value, 10) || 0`: skip leading whitespace, read an
optional sign and then the maximal run of leading decimal digits; `NaN`
(no digits) and `-0` both become `0` through `|| 0`. -/
def jsParseIntOr0 (s : List Char) : Int :=
  match s.dropWhile jsWS with
  | '-' :: rest =>
      let ds := rest.takeWhile isDigitC
      if ds = [] then 0 else -(Int.ofNat (decValue ds))
  | '+' :: rest =>
      let ds := rest.takeWhile isDigitC
      if ds = [] then 0 else Int.ofNat (decValue ds)
  | t =>
      let ds := t.takeWhile isDigitC
      if ds = [] then 0 else Int.ofNat (decValue ds)

/-- The header loop body of `parseCSV`: `score` and `num_comments` are
coerced with `parseInt(value, 10) || 0`, `is_self` and `over_18` with
a case-insensitive comparison with the word true; every other field
stays text. -/
def coerceField (key raw : List Char) : FieldVal :=
  if key = "score".data ∨ key = "num_comments".data then
    FieldVal.num (jsParseIntOr0 raw)
  else if key = "is_self".data ∨ key = "over_18".data then
    FieldVal.flag (raw.map Char.toLower = "true".data)
  else FieldVal.text raw

/-- Pushes one empty string per missing entry, as in the while loop that
compares the value count against the header count. -/
def padLoop : Nat → List (List Char) → List (List Char)
  | 0, vs => vs
  | k + 1, vs => padLoop k (vs ++ [[]])

/-- Pad `values` with empty strings until it has `n` entries. -/
def padTo (n : Nat) (vs : List (List Char)) : List (List Char) :=
  padLoop (n - vs.length) vs

/-- Models the header loop assigning each coerced positional value under
its header name; the fallback to the empty string in the source never
sees an undefined entry after padding, and maps the empty string to
itself. -/
def buildFields (headers values : List (List Char)) : List (List Char × FieldVal) :=
  headers.enum.map (fun p => (p.2, coerceField p.2 (values.getD p.1 [])))

/-- Property read on a JavaScript object built by repeated assignment:
the value of the last assignment with the given key, if any. -/
def lookupLast : List (List Char × FieldVal) → List Char → Option FieldVal
  | [], _ => none
  | p :: rest, k =>
      match lookupLast rest k with
      | some v => some v
      | none => if p.1 = k then some p.2 else none

/-- Decimal representation of a natural number, most significant digit
first; the fuel argument (always at least the number itself plus one)
makes the recursion structural. -/
def natDecAux : Nat → Nat → List Char
  | 0, _ => []
  | fuel + 1, n =>
      if n < 10 then [Nat.digitChar n]
      else natDecAux fuel (n / 10) ++ [Nat.digitChar (n % 10)]

/-- Decimal representation of a natural number, as in `${index}`. -/
def natDec (n : Nat) : List Char :=
  natDecAux (n + 1) n

/-- Decimal representation of an integer, as JavaScript renders a number
in a template literal (only used in unreachable branches below). -/
def intDec (n : Int) : List Char :=
  if n < 0 then '-' :: natDec n.natAbs else natDec n.toNat

/-- The character class kept by the identifier sanitizer regex
(`[A-Za-z0-9_-]`). -/
def isIdChar (c : Char) : Bool :=
  (97 ≤ c.toNat && c.toNat ≤ 122) || (65 ≤ c.toNat && c.toNat ≤ 90) ||
    (48 ≤ c.toNat && c.toNat ≤ 57) || c == '-' || c == '_'

/-- Models the identifier sanitizer: strip every character outside
`[A-Za-z0-9_-]`. -/
def sanitizeId (l : List Char) : List Char :=
  l.filter isIdChar

/-- Models the template interpolation of the author field with the word
story as fallback: the author field if present and truthy, the fallback
otherwise.  The key `author` is never one of the four coerced keys, so
the `num`/`flag` branches are unreachable; they model JavaScript
truthiness and template stringification anyway. -/
def authorString (fields : List (List Char × FieldVal)) : List Char :=
  match lookupLast fields ("author".data) with
  | some (FieldVal.text s) => if s = [] then "story".data else s
  | some (FieldVal.num n) => if n = 0 then "story".data else intDec n
  | some (FieldVal.flag b) => if b then "true".data else "story".data
  | none => "story".data

/-- The body of the `rows.slice(1).map((rowStr, index) => ...)` callback:
trim the row, split it into fields, pad, build the keyed fields, then
assign `id`, `status`, `isSelected` and the two file names. -/
def buildStory (headers : List (List Char)) (headerCount : Nat) (index : Nat)
    (rowStr : List Char) : Story :=
  let values := padTo headerCount (parseCsvRow (trim rowStr))
  let fields := buildFields headers values
  let id := sanitizeId (authorString fields ++ '-' :: natDec index)
  { fields := fields
    id := id
    status := "idle".data
    isSelected := false
    audioFileName := id ++ "_story.wav".data
    coverAudioFileName := id ++ "_cover.wav".data }

/-- Models the filter predicate: the body field is truthy and its trimmed
length exceeds one.  The key `rewritten_story` is never one of the four
coerced keys, so the looked-up value is text whenever it exists and the
`num`/`flag` branches are unreachable (in the source a non-string value
here would throw on the trim call, which never happens). -/
def keepStory (st : Story) : Bool :=
  match lookupLast st.fields ("rewritten_story".data) with
  | some (FieldVal.text s) => decide (s ≠ []) && decide (1 < (trim s).length)
  | some (FieldVal.num _) => false
  | some (FieldVal.flag _) => false
  | none => false

/-- The record-builder stage: trim the header names, then build one story
per data row with its positional index. -/
def storiesOfRows (headerRow : List Char) (dataRows : List (List Char)) : List Story :=
  let headers := (parseCsvRow headerRow).map trim
  (dataRows.enum).map (fun p => buildStory headers headers.length p.1 p.2)

/-- The decoded batch before the body-text filter: normalization, row
splitting and record building, exactly as in `parseCSV` up to `.filter`. -/
def rawStories (data : List Char) : List Story :=
  match splitRows (trim (normalizeCRLF data)) with
  | [] => []
  | [_] => []
  | headerRow :: dataRows => storiesOfRows headerRow dataRows

/-- Function `parseCSV` from the source: normalize, split into rows, return `[]`
when fewer than two rows remain, otherwise build one record per data row
and keep only those whose `rewritten_story` trims to length above one. -/
def parseCSV (data : List Char) : List Story :=
  match splitRows (trim (normalizeCRLF data)) with
  | [] => []
  | [_] => []
  | headerRow :: dataRows => (storiesOfRows headerRow dataRows).filter keepStory

/-- Modelled from the spec: the reference row splitter of section 4.1,
which closes a row at every unquoted newline and keeps every row, blank or
not, in its original position.  It is compared below with the function
`splitRowsAux` of the implementation. -/
def splitRowsAllAux : Bool → List Char → List Char → List (List Char)
  | _, cur, [] => [cur]
  | inQ, cur, c :: rest =>
      let inQ2 := if c = '"' then !inQ else inQ
      if c = '\n' ∧ inQ2 = false then cur :: splitRowsAllAux inQ2 [] rest
      else splitRowsAllAux inQ2 (cur ++ [c]) rest

/-- Modelled from the spec: the reference row splitter, started like the
implementation in unquoted state with an empty current row. -/
def splitRowsAll (l : List Char) : List (List Char) :=
  splitRowsAllAux false [] l

/-- The maximal suffix of a string after its last `-`; applied to a
decoder identifier it recovers the decimal row index. -/
def extractIdx (s : List Char) : List Char :=
  (s.reverse.takeWhile (fun c => !(c == '-'))).reverse

/-- A string with no comma and no quote character: such a string crosses
the field splitter as literal field content. -/
def noSpecial (l : List Char) : Prop :=
  ∀ c ∈ l, c ≠ ',' ∧ c ≠ '"'

instance (l : List Char) : Decidable (noSpecial l) := by
  unfold noSpecial; infer_instance

/-- A small well-formed input blob, used by the witness theorems. -/
def sampleBlob : List Char := "rewritten_story,author\nhello there,bob".data

/-- The single record that `parseCSV` decodes from `sampleBlob`. -/
def sampleStory : Story :=
  { fields := [("rewritten_story".data, FieldVal.text "hello there".data),
               ("author".data, FieldVal.text "bob".data)]
    id := "bob-0".data
    status := "idle".data
    isSelected := false
    audioFileName := "bob-0_story.wav".data
    coverAudioFileName := "bob-0_cover.wav".data }

theorem parseCSV_eq_filter (data : List Char) :
    parseCSV data = (rawStories data).filter keepStory := by
  unfold parseCSV rawStories
  cases splitRows (trim (normalizeCRLF data)) with
  | nil => rfl
  | cons h t => cases t with
    | nil => rfl
    | cons h2 t2 => rfl

theorem mem_rawStories_build {data : List Char} {st : Story}
    (h : st ∈ rawStories data) :
    ∃ hs i r, st = buildStory hs hs.length i r := by
  unfold rawStories at h
  revert h
  cases hsp : splitRows (trim (normalizeCRLF data)) with
  | nil => intro h; simp at h
  | cons hr t =>
      cases t with
      | nil => intro h; simp at h
      | cons r2 t2 =>
          intro h
          simp only [storiesOfRows] at h
          obtain ⟨p, _, hpe⟩ := List.mem_map.mp h
          exact ⟨(parseCsvRow hr).map trim, p.1, p.2, hpe.symm⟩

theorem mem_parseCSV_build {data : List Char} {st : Story}
    (h : st ∈ parseCSV data) :
    ∃ hs i r, st = buildStory hs hs.length i r := by
  rw [parseCSV_eq_filter] at h
  exact mem_rawStories_build (List.mem_of_mem_filter h)

/-- C10: every record returned by the decoder carries the caller-facing
transient state assigned by the decoder itself: status `idle`, not
selected, and the two audio file names derived from the identifier. -/
theorem parseCSV_transient_state (data : List Char) (st : Story)
    (h : st ∈ parseCSV data) :
    st.status = "idle".data ∧ st.isSelected = false ∧
      st.audioFileName = st.id ++ "_story.wav".data ∧
      st.coverAudioFileName = st.id ++ "_cover.wav".data := by
  obtain ⟨hs, i, r, rfl⟩ := mem_parseCSV_build h
  exact ⟨rfl, rfl, rfl, rfl⟩

theorem parseCSV_transient_state_witness :
    sampleStory.status = "idle".data ∧ sampleStory.isSelected = false ∧
      sampleStory.audioFileName = sampleStory.id ++ "_story.wav".data ∧
      sampleStory.coverAudioFileName = sampleStory.id ++ "_cover.wav".data :=
  parseCSV_transient_state sampleBlob sampleStory (by decide)

/-- C4: an input blob whose row splitter produces fewer than two logical
rows decodes to the empty record sequence (and, the decoder being a total
function, without any error). -/
theorem parseCSV_short_input (data : List Char)
    (h : (splitRows (trim (normalizeCRLF data))).length < 2) :
    parseCSV data = [] := by
  unfold parseCSV
  cases hsp : splitRows (trim (normalizeCRLF data)) with
  | nil => rfl
  | cons a t =>
      cases t with
      | nil => rfl
      | cons b t2 =>
          rw [hsp] at h
          simp [List.length_cons] at h
          omega

theorem parseCSV_short_input_witness : parseCSV ("only_header".data) = [] :=
  parseCSV_short_input _ (by decide)

theorem padLoop_eq (k : Nat) : ∀ vs, padLoop k vs = vs ++ List.replicate k [] := by
  induction k with
  | zero => intro vs; simp [padLoop]
  | succ k ih =>
      intro vs
      simp [padLoop, ih, List.replicate_succ]

/-- C5: a value row shorter than the header is padded with empty strings
up to the header count, never truncated; decoding header `a,b,c` with
data row `x,y` builds a record whose field `c` is the empty string (the
record builder keeps the field; the later body-text filter then drops this
particular record since it has no `rewritten_story`). -/
theorem padTo_pads_never_truncates :
    (∀ n vs, padTo n vs = vs ++ List.replicate (n - vs.length) []) ∧
    (∀ n vs, (padTo n vs).take vs.length = vs ∧ n ≤ (padTo n vs).length) ∧
    (rawStories ("a,b,c\nx,y".data)).map
        (fun st => lookupLast st.fields ("c".data)) =
      [some (FieldVal.text [])] := by
  refine ⟨fun n vs => padLoop_eq _ vs, fun n vs => ?_, by decide⟩
  constructor
  · rw [padTo, padLoop_eq, List.take_left]
  · rw [padTo, padLoop_eq]
    simp [List.length_append, List.length_replicate]
    omega

/-- C1: a newline seen by the row splitter while the quote flag is set is
accumulated as literal row content, while a newline outside quotes closes
the current row; consequently a double-quoted field with an embedded
newline spans one logical row and decodes to one record holding the
newline as literal text. -/
theorem quoted_newline_single_row :
    (∀ cur rest, splitRowsAux true cur ('\n' :: rest) =
        splitRowsAux true (cur ++ ['\n']) rest) ∧
    (∀ cur rest, splitRowsAux false cur ('\n' :: rest) =
        pushRow cur ++ splitRowsAux false [] rest) ∧
    parseCSV ("rewritten_story,author\n\"line one\nline two\",bob".data) =
      [{ fields := [("rewritten_story".data, FieldVal.text "line one\nline two".data),
                    ("author".data, FieldVal.text "bob".data)]
         id := "bob-0".data
         status := "idle".data
         isSelected := false
         audioFileName := "bob-0_story.wav".data
         coverAudioFileName := "bob-0_cover.wav".data }] := by
  refine ⟨fun cur rest => ?_, fun cur rest => ?_, by decide⟩
  · simp [splitRowsAux]
  · simp [splitRowsAux]

/-- C2: inside a quoted span a doubled quote emits one literal quote and
stays quoted, a lone quote leaves the quoted state; the row fragment
`"He said ""hi""."` decodes to the single field `He said "hi".`. -/
theorem quoted_state_quote_handling :
    (∀ cur rest, fieldsAux true cur ('"' :: '"' :: rest) =
        fieldsAux true (cur ++ ['"']) rest) ∧
    (∀ cur c rest, c ≠ '"' →
        fieldsAux true cur ('"' :: c :: rest) = fieldsAux false cur (c :: rest)) ∧
    parseCsvRow ("\"He said \"\"hi\"\".\"".data) = ["He said \"hi\".".data] := by
  refine ⟨fun cur rest => ?_, fun cur c rest h => ?_, by decide⟩
  · simp [fieldsAux]
  · simp [fieldsAux, h]

theorem quoted_state_quote_handling_witness :
    fieldsAux true [] ('"' :: 'x' :: []) = fieldsAux false [] ('x' :: []) :=
  quoted_state_quote_handling.2.1 [] 'x' [] (by decide)

theorem ne_nil_of_trim_length {s : List Char} (h : 1 < (trim s).length) :
    s ≠ [] := by
  intro he
  subst he
  simp [trim] at h

/-- C3: a record is in the output of the decoder exactly when it is among the
structurally built records and its `rewritten_story` field is present with
a trimmed length strictly greater than one; records whose body field trims
to one character or to the empty string are silently excluded. -/
theorem mem_parseCSV_iff_body (data : List Char) (st : Story) :
    st ∈ parseCSV data ↔
      st ∈ rawStories data ∧
        ∃ s, lookupLast st.fields ("rewritten_story".data) = some (FieldVal.text s) ∧
          1 < (trim s).length := by
  rw [parseCSV_eq_filter, List.mem_filter]
  constructor
  · rintro ⟨hm, hk⟩
    refine ⟨hm, ?_⟩
    unfold keepStory at hk
    rcases hlk : lookupLast st.fields ("rewritten_story".data) with _ | v
    · rw [hlk] at hk; simp at hk
    · cases v with
      | text s =>
          rw [hlk] at hk
          simp at hk
          exact ⟨s, rfl, hk.2⟩
      | num n => rw [hlk] at hk; simp at hk
      | flag b => rw [hlk] at hk; simp at hk
  · rintro ⟨hm, s, hlk, hlen⟩
    refine ⟨hm, ?_⟩
    unfold keepStory
    rw [hlk]
    simp [hlen, ne_nil_of_trim_length hlen]

theorem pushRow_eq_filter (cur : List Char) :
    pushRow cur = [cur].filter (fun r => !(trim r).isEmpty) := by
  unfold pushRow
  by_cases hb : trim cur = []
  · simp [hb]
  · simp [hb, List.isEmpty_iff]

theorem splitRowsAux_filter :
    ∀ (l : List Char) (inQ : Bool) (cur : List Char),
      splitRowsAux inQ cur l =
        (splitRowsAllAux inQ cur l).filter (fun r => !(trim r).isEmpty) := by
  intro l
  induction l with
  | nil =>
      intro inQ cur
      simp only [splitRowsAux, splitRowsAllAux]
      exact pushRow_eq_filter cur
  | cons c rest ih =>
      intro inQ cur
      simp only [splitRowsAux, splitRowsAllAux]
      by_cases hc : c = '\n' ∧ (if c = '"' then !inQ else inQ) = false
      · rw [if_pos hc, if_pos hc, List.filter_cons, ih]
        rw [pushRow_eq_filter]
        by_cases hb : (!(trim cur).isEmpty) = true
        · simp [hb]
        · simp at hb
          simp [hb]
      · rw [if_neg hc, if_neg hc]
        exact ih _ _

/-- C8 (amended): the row splitter emits the logical rows in original
order but drops every empty or whitespace-only row wherever it occurs, not
only trailing ones: it equals the keep-everything splitter followed by a
filter removing all blank rows, and on `a\n \nb` the interior blank row
disappears. -/
theorem splitRows_filters_all_blank :
    (∀ l, splitRows l = (splitRowsAll l).filter (fun r => !(trim r).isEmpty)) ∧
    splitRowsAll ("a\n \nb".data) = ["a".data, " ".data, "b".data] ∧
    splitRows ("a\n \nb".data) = ["a".data, "b".data] := by
  refine ⟨fun l => splitRowsAux_filter l false [], by decide, by decide⟩

/-- C8 counterexample: on the blob `a\n \nb` the whitespace-only row
between the two non-empty rows is not kept in the splitter output,
contradicting the claim that only trailing blank rows are dropped. -/
theorem splitRows_drops_interior_blank :
    splitRows ("a\n \nb".data) = ["a".data, "b".data] ∧
      ¬ (" ".data ∈ splitRows ("a\n \nb".data)) := by decide

theorem fieldsAux_no_special :
    ∀ (l : List Char) (cur : List Char), noSpecial l →
      fieldsAux false cur l = [cur ++ l] := by
  intro l
  induction l with
  | nil => intro cur _; simp [fieldsAux]
  | cons c t ih =>
      intro cur h
      obtain ⟨hc, hq⟩ := h c (List.mem_cons_self c t)
      have ht : noSpecial t := fun x hx => h x (List.mem_cons_of_mem c hx)
      simp [fieldsAux, hc, hq, ih (cur ++ [c]) ht]

theorem fieldsAux_comma_split :
    ∀ (a : List Char) (rest cur : List Char), noSpecial a →
      fieldsAux false cur (a ++ ',' :: rest) = (cur ++ a) :: fieldsAux false [] rest := by
  intro a
  induction a with
  | nil => intro rest cur _; simp [fieldsAux]
  | cons c t ih =>
      intro rest cur h
      obtain ⟨hc, hq⟩ := h c (List.mem_cons_self c t)
      have ht : noSpecial t := fun x hx => h x (List.mem_cons_of_mem c hx)
      simp [fieldsAux, hc, hq, ih rest (cur ++ [c]) ht]

/-- C9 (amended): the field splitter itself preserves every character of a
field, including leading and trailing whitespace, and header names are
trimmed; but each data row is trimmed as a whole before field-splitting,
so the first field loses its leading and the last field its trailing
whitespace, while interior edges are preserved. -/
theorem field_whitespace_row_trim :
    (∀ a b c, noSpecial a → noSpecial b → noSpecial c →
        parseCsvRow (a ++ ',' :: (b ++ ',' :: c)) = [a, b, c]) ∧
    parseCSV ("rewritten_story,note\n hi there , x ".data) =
      [{ fields := [("rewritten_story".data, FieldVal.text "hi there ".data),
                    ("note".data, FieldVal.text " x".data)]
         id := "story-0".data
         status := "idle".data
         isSelected := false
         audioFileName := "story-0_story.wav".data
         coverAudioFileName := "story-0_cover.wav".data }] := by
  refine ⟨fun a b c ha hb hc => ?_, by decide⟩
  unfold parseCsvRow
  rw [fieldsAux_comma_split a _ [] ha, fieldsAux_comma_split b _ [] hb,
    fieldsAux_no_special c [] hc]
  simp

theorem field_whitespace_row_trim_witness :
    parseCsvRow ((" a ".data) ++ ',' :: ((" b ".data) ++ ',' :: (" c ".data))) =
      [" a ".data, " b ".data, " c ".data] :=
  field_whitespace_row_trim.1 _ _ _ (by decide) (by decide) (by decide)

/-- C9 counterexample: the input field ` hi there ` (with leading and
trailing spaces) decodes to `hi there` because the decoder trims the whole
data row before splitting it, so field whitespace at the row edges is not
preserved. -/
theorem field_whitespace_not_preserved :
    (parseCSV ("rewritten_story\n hi there ".data)).map
        (fun st => lookupLast st.fields ("rewritten_story".data)) =
      [some (FieldVal.text "hi there".data)] ∧
      "hi there".data ≠ " hi there ".data := by decide

theorem lookupLast_mem :
    ∀ (fields : List (List Char × FieldVal)) (k : List Char) (v : FieldVal),
      lookupLast fields k = some v → (k, v) ∈ fields := by
  intro fields
  induction fields with
  | nil => intro k v h; simp [lookupLast] at h
  | cons p rest ih =>
      intro k v h
      unfold lookupLast at h
      rcases hr : lookupLast rest k with _ | w
      · rw [hr] at h
        simp only at h
        by_cases hpk : p.1 = k
        · rw [if_pos hpk] at h
          obtain rfl : p.2 = v := by injection h
          subst hpk
          exact List.mem_cons_self _ _
        · rw [if_neg hpk] at h
          cases h
      · rw [hr] at h
        simp only at h
        obtain rfl : w = v := by injection h
        exact List.mem_cons_of_mem _ (ih k _ hr)

theorem coerceField_rewritten_story (raw : List Char) :
    coerceField ("rewritten_story".data) raw = FieldVal.text raw := by
  unfold coerceField
  rw [if_neg (by decide), if_neg (by decide)]

theorem buildFields_key_val {headers values : List (List Char)}
    {k : List Char} {v : FieldVal} (h : (k, v) ∈ buildFields headers values) :
    ∃ raw, v = coerceField k raw := by
  unfold buildFields at h
  obtain ⟨p, _, hpe⟩ := List.mem_map.mp h
  obtain ⟨h1, h2⟩ := Prod.mk.injEq _ _ _ _ ▸ hpe
  subst h1
  exact ⟨_, h2.symm⟩

theorem rawStories_body_text (data : List Char) (st : Story) (v : FieldVal)
    (hm : st ∈ rawStories data)
    (hlk : lookupLast st.fields ("rewritten_story".data) = some v) :
    ∃ s, v = FieldVal.text s := by
  obtain ⟨hs, i, r, rfl⟩ := mem_rawStories_build hm
  have hmem := lookupLast_mem _ _ _ hlk
  simp only [buildStory] at hmem
  obtain ⟨raw, hraw⟩ := buildFields_key_val hmem
  rw [coerceField_rewritten_story] at hraw
  exact ⟨raw, hraw⟩

/-- C7: the decoder is a total function that degrades malformed input to
defaults instead of failing: the body field is always plain text (so the
trim call of the filter never sees a non-string), every field is coerced to
exactly one of number, flag or text, an unparseable numeric field becomes
`0`, a missing flag field becomes `false`, and a blob exercising all of
these decodes to a record with those defaults. -/
theorem decoder_degrades_to_defaults :
    (∀ data st v, st ∈ rawStories data →
        lookupLast st.fields ("rewritten_story".data) = some v →
        ∃ s, v = FieldVal.text s) ∧
    (∀ key raw, (∃ n, coerceField key raw = FieldVal.num n) ∨
        (∃ b, coerceField key raw = FieldVal.flag b) ∨
        coerceField key raw = FieldVal.text raw) ∧
    coerceField ("score".data) ("abc".data) = FieldVal.num 0 ∧
    coerceField ("is_self".data) [] = FieldVal.flag false ∧
    parseCSV ("score,is_self,rewritten_story\nabc,,hello world".data) =
      [{ fields := [("score".data, FieldVal.num 0),
                    ("is_self".data, FieldVal.flag false),
                    ("rewritten_story".data, FieldVal.text "hello world".data)]
         id := "story-0".data
         status := "idle".data
         isSelected := false
         audioFileName := "story-0_story.wav".data
         coverAudioFileName := "story-0_cover.wav".data }] := by
  refine ⟨rawStories_body_text, fun key raw => ?_, by decide, by decide, by decide⟩
  unfold coerceField
  by_cases h1 : key = "score".data ∨ key = "num_comments".data
  · rw [if_pos h1]; exact Or.inl ⟨_, rfl⟩
  · rw [if_neg h1]
    by_cases h2 : key = "is_self".data ∨ key = "over_18".data
    · rw [if_pos h2]; exact Or.inr (Or.inl ⟨_, rfl⟩)
    · rw [if_neg h2]; exact Or.inr (Or.inr rfl)

theorem decoder_degrades_to_defaults_witness :
    ∃ s, FieldVal.text ("hello there".data) = FieldVal.text s :=
  decoder_degrades_to_defaults.1 sampleBlob sampleStory
    (FieldVal.text ("hello there".data)) (by decide) (by decide)

theorem digitChar_toNat (d : Nat) (h : d < 10) : (Nat.digitChar d).toNat = 48 + d := by
  interval_cases d <;> rfl

theorem natDecAux_spec :
    ∀ (fuel n : Nat), n < fuel →
      decValue (natDecAux fuel n) = n ∧
        ∀ c ∈ natDecAux fuel n, isDigitC c = true := by
  intro fuel
  induction fuel with
  | zero => intro n h; omega
  | succ fuel ih =>
      intro n h
      unfold natDecAux
      by_cases h10 : n < 10
      · rw [if_pos h10]
        refine ⟨?_, ?_⟩
        · simp [decValue, digitChar_toNat n h10]
        · intro c hc
          simp at hc
          subst hc
          simp [isDigitC, digitChar_toNat n h10]
          omega
      · rw [if_neg h10]
        have hdiv : n / 10 < fuel := by
          have h1 : n / 10 < n := Nat.div_lt_self (by omega) (by omega)
          omega
        obtain ⟨ih1, ih2⟩ := ih (n / 10) hdiv
        have hmod : n % 10 < 10 := Nat.mod_lt n (by omega)
        refine ⟨?_, ?_⟩
        · unfold decValue
          rw [List.foldl_append]
          have : List.foldl (fun a c => a * 10 + (c.toNat - 48)) 0 (natDecAux fuel (n / 10)) = n / 10 := ih1
          rw [this]
          simp [digitChar_toNat (n % 10) hmod]
          omega
        · intro c hc
          rw [List.mem_append] at hc
          rcases hc with hc | hc
          · exact ih2 c hc
          · simp at hc
            subst hc
            simp [isDigitC, digitChar_toNat (n % 10) hmod]
            omega

theorem decValue_natDec (n : Nat) : decValue (natDec n) = n :=
  (natDecAux_spec (n + 1) n (Nat.lt_succ_self n)).1

theorem natDec_digits (n : Nat) : ∀ c ∈ natDec n, isDigitC c = true :=
  (natDecAux_spec (n + 1) n (Nat.lt_succ_self n)).2

theorem natDec_injective : Function.Injective natDec := by
  intro a b h
  have ha := decValue_natDec a
  rw [h, decValue_natDec] at ha
  omega

theorem isIdChar_of_digit (c : Char) (h : isDigitC c = true) : isIdChar c = true := by
  simp only [isDigitC, Bool.and_eq_true, decide_eq_true_eq] at h
  simp only [isIdChar, Bool.or_eq_true, Bool.and_eq_true, decide_eq_true_eq]
  tauto

theorem natDec_ne_dash (n : Nat) : ∀ c ∈ natDec n, (c == '-') = false := by
  intro c hc
  have h := natDec_digits n c hc
  simp only [isDigitC, Bool.and_eq_true, decide_eq_true_eq] at h
  simp only [beq_eq_false_iff_ne, ne_eq]
  rintro rfl
  exact absurd h (by decide)

theorem takeWhile_append_false (q : Char → Bool) :
    ∀ (l1 : List Char) (x : Char) (l2 : List Char),
      (∀ c ∈ l1, q c = true) → q x = false →
      List.takeWhile q (l1 ++ x :: l2) = l1 := by
  intro l1
  induction l1 with
  | nil =>
      intro x l2 _ hx
      simp [List.takeWhile_cons, hx]
  | cons a t ih =>
      intro x l2 hall hx
      have ha : q a = true := hall a (List.mem_cons_self a t)
      simp [List.takeWhile_cons, ha,
        ih x l2 (fun c hc => hall c (List.mem_cons_of_mem a hc)) hx]

theorem extractIdx_append (p d : List Char)
    (hd : ∀ c ∈ d, (c == '-') = false) :
    extractIdx (p ++ '-' :: d) = d := by
  unfold extractIdx
  rw [List.reverse_append, List.reverse_cons, List.append_assoc,
    List.singleton_append]
  rw [takeWhile_append_false _ d.reverse '-' p.reverse ?_ ?_]
  · exact List.reverse_reverse d
  · intro c hc
    simp only [Bool.not_eq_true']
    exact hd c (List.mem_reverse.mp hc)
  · simp

theorem buildStory_id (hs : List (List Char)) (n i : Nat) (r : List Char) :
    (buildStory hs n i r).id =
      sanitizeId (authorString (buildFields hs (padTo n (parseCsvRow (trim r))))) ++
        '-' :: natDec i := by
  show sanitizeId (authorString _ ++ '-' :: natDec i) = _
  unfold sanitizeId
  rw [List.filter_append]
  congr 1
  rw [List.filter_cons]
  have hdash : isIdChar '-' = true := by decide
  rw [if_pos hdash]
  congr 1
  exact List.filter_eq_self.mpr (fun c hc => isIdChar_of_digit c (natDec_digits i c hc))

theorem extractIdx_buildStory (hs : List (List Char)) (n i : Nat) (r : List Char) :
    extractIdx (buildStory hs n i r).id = natDec i := by
  rw [buildStory_id, extractIdx_append _ _ (natDec_ne_dash i)]

theorem rawStories_ids_nodup (data : List Char) :
    ((rawStories data).map Story.id).Nodup := by
  unfold rawStories
  cases splitRows (trim (normalizeCRLF data)) with
  | nil => simp
  | cons hr t =>
      cases t with
      | nil => simp
      | cons r2 t2 =>
          simp only [storiesOfRows]
          rw [List.map_map]
          apply List.Nodup.of_map extractIdx
          rw [List.map_map]
          have hfun :
              (extractIdx ∘ (Story.id ∘ fun p : Nat × List Char =>
                buildStory ((parseCsvRow hr).map trim) ((parseCsvRow hr).map trim).length p.1 p.2)) =
                (natDec ∘ Prod.fst) := by
            funext p
            simp [Function.comp, extractIdx_buildStory]
          rw [hfun, ← List.map_map]
          exact (List.nodup_enum_map_fst _).map natDec_injective

/-- C6: within one decoded batch the record identifiers are pairwise
distinct (the decimal row index after the final hyphen survives the strip
and separates them), and every identifier character lies in
`[A-Za-z0-9_-]`. -/
theorem parseCSV_ids_nodup_sane (data : List Char) :
    ((parseCSV data).map Story.id).Nodup ∧
      ∀ st ∈ parseCSV data, ∀ c ∈ st.id, isIdChar c = true := by
  constructor
  · rw [parseCSV_eq_filter]
    have hsub : List.Sublist (((rawStories data).filter keepStory).map Story.id)
        ((rawStories data).map Story.id) :=
      (List.filter_sublist _).map Story.id
    exact (rawStories_ids_nodup data).sublist hsub
  · intro st hst c hc
    obtain ⟨hs, i, r, rfl⟩ := mem_parseCSV_build hst
    simp only [buildStory, sanitizeId] at hc
    exact List.of_mem_filter hc

theorem parseCSV_ids_nodup_sane_witness : isIdChar 'b' = true :=
  (parseCSV_ids_nodup_sane sampleBlob).2 sampleStory (by decide) 'b' (by decide)

end RedditCsv
